import Mathlib

set_option maxRecDepth 10000

/-!
Verification of the ustar extraction engine in `untar.c` (mescc-tools-extra).

The C sources are shallowly embedded: the archive stream is a `List Nat` of
byte values (0..255, one list element per byte), C `int` arithmetic is
modelled by `Int` (no field parsed by this program can overflow the native
word on the bootstrap targets, and no claim concerns a specific word width),
and characters are read unsigned, as the bootstrap loaders do.

Fallible external calls (`mkdir`, `fopen`, `fwrite`) are driven by an oracle:
a list of `Bool` results consumed one per call, an exhausted oracle meaning
unconditional success.  Filesystem side effects and diagnostics are recorded
as a trace of events.

Functions that the C source writes as loops or recursion are defined
structurally over an explicit fuel argument; the exported wrappers supply a
fuel that provably always suffices, so every wrapper application computes and
the fuel never changes the semantics (see the fuel monotonicity lemmas).
-/

/-- One oracle draw: the result of the next fallible external call.  An
exhausted oracle yields success, so `[]` models a fully cooperative
filesystem. -/
def takeO : List Bool → Bool × List Bool
  | [] => (true, [])
  | b :: bs => (b, bs)

/-- The C string stored in a byte buffer: the bytes strictly before the first
NUL. -/
def cstr (l : List Nat) : List Nat := l.takeWhile (fun b => b != 0)

/-- Index of the last occurrence of byte `c` in `l` (the model of
`strrchr`), `none` when `c` does not occur. -/
def lastIdx (l : List Nat) (c : Nat) : Option Nat :=
  match l with
  | [] => none
  | a :: as =>
    match lastIdx as c with
    | some i => some (i + 1)
    | none => if a = c then some 0 else none

/-- Accumulation loop of `parseoct` (untar.c lines 52-59): fold octal digits
until a non-digit or the end of the field.  `i << 3; i = i + h - 48` is
`i * 8 + (h - 48)`. -/
def parseoctAcc : Int → List Nat → Int
  | i, [] => i
  | i, c :: cs => if 48 ≤ c ∧ c ≤ 55 then parseoctAcc (i * 8 + ((c : Int) - 48)) cs else i

/-- Skip loop of `parseoct` (untar.c lines 46-50): drop leading bytes that are
not octal digits.  (The C loop tests `p[0]` before `n > 0`; when `n` reaches 0
that read is of the byte after the field, still inside the 514-byte block
buffer, and the conjunction is false whatever it yields, so the result only
depends on the field bytes, as here.) -/
def parseoctSkip : List Nat → List Nat
  | [] => []
  | c :: cs => if 48 ≤ c ∧ c ≤ 55 then c :: cs else parseoctSkip cs

/-- `parseoct` (untar.c lines 41-62): parse an octal number, ignoring leading
and trailing nonsense. -/
def parseoct (p : List Nat) : Int := parseoctAcc 0 (parseoctSkip p)

/-- `is_end_of_archive` (untar.c lines 65-78): true when all 512 bytes of the
block are zero. -/
def is_end_of_archive (p : List Nat) : Bool := (p.take 512).all (fun b => b == 0)

/-- Checksum loop of `verify_checksum` (untar.c lines 147-159), indexed by the
position `n` of the first byte of `l` inside the block: bytes at offsets
148..155 count as `0x20`, every other byte counts as itself. -/
def checksumAux : Nat → List Nat → Int
  | _, [] => 0
  | n, b :: bs => (if n < 148 ∨ n > 155 then (b : Int) else 32) + checksumAux (n + 1) bs

/-- The sum computed by `verify_checksum` over the 512 block bytes. -/
def checksumOf (p : List Nat) : Int := checksumAux 0 (p.take 512)

/-- `verify_checksum` (untar.c lines 141-164): compare the recomputed sum with
`parseoct(p + 148, 8)`. -/
def verify_checksum (p : List Nat) : Bool :=
  checksumOf p == parseoct ((p.drop 148).take 8)

/-- Observable effects of a run: filesystem calls and per-entry diagnostics.
`evEntryDir`/`evEntryFile` record the dispatch of an entry together with the
pathname argument handed to `create_dir`/`create_file`; `evMkdir` and
`evFopen` record the individual `mkdir`/`fopen` calls with their oracle
result; `evWrite` records the bytes passed to a successful `fwrite`;
`evShortWrite` records the `Failed write` diagnostic; `evClose` records an
`fclose` of the output file. -/
inductive Ev where
  | evEntryDir : List Nat → Int → Ev
  | evEntryFile : List Nat → Int → Ev
  | evIgnore : Nat → List Nat → Ev
  | evMkdir : List Nat → Int → Bool → Ev
  | evFopen : List Nat → Bool → Ev
  | evWrite : List Nat → Ev
  | evShortWrite : Ev
  | evClose : Ev
deriving DecidableEq

/-- How a run of `untar` on one stream ends: `shortHeader got` is the short
read while reading a header (untar.c line 182), `eoa` the all-zero end of
archive block (line 192), `badChecksum` the checksum failure (line 199), and
`shortPayload got` the short read inside the payload loop (line 251). -/
inductive Stop where
  | shortHeader : Nat → Stop
  | eoa : Stop
  | badChecksum : Stop
  | shortPayload : Nat → Stop
deriving DecidableEq

/-- True exactly on the payload-loop short read outcome. -/
def Stop.isShortPayload : Stop → Bool
  | .shortPayload _ => true
  | _ => false

/-- Result of `create_dir`: the events, the final contents of the caller's
path buffer, the remaining oracle, and whether the final `mkdir` of the
requested directory succeeded (`r == 0`). -/
structure DirRes where
  evs : List Ev
  buf : List Nat
  oracle : List Bool
  ok : Bool
deriving DecidableEq

/-- `create_dir` (untar.c lines 81-115) with fuel: strip one trailing `/`,
try `mkdir`; on failure cut the buffer at the last `/`, recursively create
the parent with mode 0755 (= 493), restore the `/`, and retry.  The strip
tests `pathname[strlen(pathname) - 1]`; for the empty string the C code reads
the byte before the buffer, which compares unequal to `/` on the actual
heap layouts, modelled here by the `0 < n` guard. -/
def create_dirF : Nat → List Bool → List Nat → Int → DirRes
  | 0, o, buf, _ => ⟨[], buf, o, false⟩
  | fuel + 1, o, buf, mode =>
    let n := (cstr buf).length
    let buf1 := if 0 < n ∧ buf.getD (n - 1) 0 = 47 then buf.set (n - 1) 0 else buf
    let p := takeO o
    if p.1 then ⟨[.evMkdir (cstr buf1) mode true], buf1, p.2, true⟩
    else
      match lastIdx (cstr buf1) 47 with
      | none => ⟨[.evMkdir (cstr buf1) mode false], buf1, p.2, false⟩
      | some i =>
        let d := create_dirF fuel p.2 (buf1.set i 0) 493
        let buf4 := d.buf.set i 47
        let q := takeO d.oracle
        ⟨.evMkdir (cstr buf1) mode false :: (d.evs ++ [.evMkdir (cstr buf4) mode q.1]),
         buf4, q.2, q.1⟩

/-- `create_dir` with its always-sufficient fuel: each recursive call strictly
shrinks the C string in the buffer, so `strlen + 1` levels always complete the
recursion. -/
def create_dir (o : List Bool) (buf : List Nat) (mode : Int) : DirRes :=
  create_dirF ((cstr buf).length + 1) o buf mode

/-- Result of `create_file`: events, final buffer contents, remaining oracle,
and whether an output handle is open (`f != NULL`). -/
structure FileRes where
  evs : List Ev
  buf : List Nat
  oracle : List Bool
  fOpen : Bool
deriving DecidableEq

/-- `create_file` (untar.c lines 118-138): `fopen(pathname, "w")`; on failure
cut at the last `/`, `create_dir` the parent with mode 0755, restore the `/`,
and retry the `fopen`.  The `mode` argument is accepted but never used, as in
the source. -/
def create_file (o : List Bool) (buf : List Nat) (mode : Int) : FileRes :=
  let _ := mode
  let p := takeO o
  if p.1 then ⟨[.evFopen (cstr buf) true], buf, p.2, true⟩
  else
    match lastIdx (cstr buf) 47 with
    | none => ⟨[.evFopen (cstr buf) false], buf, p.2, false⟩
    | some i =>
      let d := create_dir p.2 (buf.set i 0) 493
      let buf4 := d.buf.set i 47
      let q := takeO d.oracle
      ⟨.evFopen (cstr buf) false :: (d.evs ++ [.evFopen (cstr buf4) q.1]),
       buf4, q.2, q.1⟩

/-- Result of the per-entry type dispatch (untar.c lines 205-245): its events,
the value left in `filesize` for the payload loop, whether an output handle is
open, and the remaining oracle. -/
structure DispRes where
  evs : List Ev
  filesize : Int
  fOpen : Bool
  oracle : List Bool
deriving DecidableEq

/-- Per-entry dispatch of `untar` (untar.c lines 205-245): parse `filesize`
from offset 124, branch on the type flag at offset 156; `'5'` creates a
directory with the mode from offset 100 and forces `filesize` to 0; types
`'1'`..`'4'` and `'6'` are logged and skipped; everything else is extracted
as a regular file via `create_file`. -/
def dispatch (hdr : List Nat) (o : List Bool) : DispRes :=
  let filesize := parseoct ((hdr.drop 124).take 12)
  let op := hdr.getD 156 0
  if op = 49 then ⟨[.evIgnore 49 (cstr hdr)], filesize, false, o⟩
  else if op = 50 then ⟨[.evIgnore 50 (cstr hdr)], filesize, false, o⟩
  else if op = 51 then ⟨[.evIgnore 51 (cstr hdr)], filesize, false, o⟩
  else if op = 52 then ⟨[.evIgnore 52 (cstr hdr)], filesize, false, o⟩
  else if op = 53 then
    let mode := parseoct ((hdr.drop 100).take 8)
    let d := create_dir o hdr mode
    ⟨.evEntryDir (cstr hdr) mode :: d.evs, 0, false, d.oracle⟩
  else if op = 54 then ⟨[.evIgnore 54 (cstr hdr)], filesize, false, o⟩
  else
    let mode := parseoct ((hdr.drop 100).take 8)
    let f := create_file o hdr mode
    ⟨.evEntryFile (cstr hdr) mode :: f.evs, filesize, f.fOpen, f.oracle⟩

/-- Result of the payload loop: events, `some got` on a short block read
(`none` when the payload was fully drained), the final handle state, the
final value of the `filesize` counter, the remaining oracle and stream. -/
structure DrainRes where
  evs : List Ev
  short : Option Nat
  fOpen : Bool
  rem : Int
  oracle : List Bool
  stream : List Nat
deriving DecidableEq

/-- Payload loop of `untar` (untar.c lines 247-277) with fuel: while
`filesize > 0`, read one 512-byte block (a short read exits the whole
function at once, handle state untouched), clip `bytes_read` to `filesize`
when `filesize < 512`, write the clipped prefix of the block when a handle is
open (closing and nulling the handle on a short write), and decrement
`filesize` by the clipped `bytes_read`. -/
def drainF : Nat → List Bool → Bool → Int → List Nat → DrainRes
  | 0, o, f, n, s => ⟨[], none, f, n, o, s⟩
  | fuel + 1, o, f, n, s =>
    if n > 0 then
      if s.length < 512 then ⟨[], some s.length, f, n, o, s⟩
      else
        let br : Int := if n < 512 then n else 512
        if f then
          let p := takeO o
          if p.1 then
            let r := drainF fuel p.2 true (n - br) (s.drop 512)
            ⟨.evWrite ((s.take 512).take br.toNat) :: r.evs,
             r.short, r.fOpen, r.rem, r.oracle, r.stream⟩
          else
            let r := drainF fuel p.2 false (n - br) (s.drop 512)
            ⟨.evShortWrite :: .evClose :: r.evs,
             r.short, r.fOpen, r.rem, r.oracle, r.stream⟩
        else drainF fuel o false (n - br) (s.drop 512)
    else ⟨[], none, f, n, o, s⟩

/-- The payload loop with its always-sufficient fuel: every iteration consumes
512 bytes of the stream or exits, so `length + 1` iterations always reach an
exit. -/
def drain (o : List Bool) (f : Bool) (filesize : Int) (s : List Nat) : DrainRes :=
  drainF (s.length + 1) o f filesize s

/-- Result of `untar` on one stream: events, how the run stopped, whether an
output handle is still open on return, the remaining oracle, and the part of
the stream that was never read. -/
structure RunRes where
  evs : List Ev
  stop : Stop
  fOpen : Bool
  oracle : List Bool
  stream : List Nat
deriving DecidableEq

/-- Main loop of `untar` (untar.c lines 177-284) with fuel: read a 512-byte
header (short read stops the stream), stop on an all-zero block, stop on a
checksum failure, otherwise dispatch the entry, drain its payload, close any
open handle (untar.c lines 279-283) and continue with the next header.  The
payload short read returns from the whole function directly, without the
close. -/
def untarF : Nat → List Bool → List Nat → RunRes
  | 0, o, s => ⟨[], .shortHeader 0, false, o, s⟩
  | fuel + 1, o, s =>
    if s.length < 512 then ⟨[], .shortHeader s.length, false, o, s⟩
    else
      let hdr := s.take 512
      let rest := s.drop 512
      if is_end_of_archive hdr then ⟨[], .eoa, false, o, rest⟩
      else if verify_checksum hdr then
        let d := dispatch hdr o
        let r := drain d.oracle d.fOpen d.filesize rest
        match r.short with
        | some got => ⟨d.evs ++ r.evs, .shortPayload got, r.fOpen, r.oracle, r.stream⟩
        | none =>
          let t := untarF fuel r.oracle r.stream
          ⟨d.evs ++ r.evs ++ (if r.fOpen then [Ev.evClose] else []) ++ t.evs,
           t.stop, t.fOpen, t.oracle, t.stream⟩
      else ⟨[], .badChecksum, false, o, rest⟩

/-- `untar` with its always-sufficient fuel: every entry consumes at least the
512 header bytes, so `length + 1` entries always reach an exit. -/
def untar (o : List Bool) (s : List Nat) : RunRes := untarF (s.length + 1) o s

/-- An all-zero 512-byte block: the end-of-archive marker. -/
def zeroBlock : List Nat := List.replicate 512 0

/-- Number of 512-byte payload blocks of an entry of declared size `S`:
`ceil(S / 512)`. -/
def ceilBlocks (S : Nat) : Nat := (S + 511) / 512

/-- A payload as it appears on the stream: the bytes padded with zeros up to
the next 512-byte boundary. -/
def padTo512 (l : List Nat) : List Nat :=
  l ++ List.replicate ((512 - l.length % 512) % 512) 0

/-- Modelled from the spec: the unsigned sum of a list of bytes. -/
def unsignedSum (l : List Nat) : Int := (l.map (fun b => (b : Int))).sum

/-- Modelled from the spec: the block with each of the 8 checksum-field bytes
(offsets 148..155) replaced by an ASCII space (0x20). -/
def spacedBlock (p : List Nat) : List Nat :=
  p.take 148 ++ List.replicate 8 32 ++ p.drop 156

/-- The string encoded in the header's name field: offset 0, up to 100 bytes,
NUL-terminated. -/
def nameField (hdr : List Nat) : List Nat := cstr (hdr.take 100)

/-- A name with one trailing path separator stripped. -/
def stripSlash (s : List Nat) : List Nat :=
  if s.getD (s.length - 1) 0 = 47 then s.dropLast else s

/-- All bytes written to the output file during a run, in order. -/
def writtenBytes : List Ev → List Nat
  | [] => []
  | .evWrite bs :: r => bs ++ writtenBytes r
  | _ :: r => writtenBytes r

/-- The paths of the files actually created (successful `fopen` calls), in
order. -/
def createdFiles : List Ev → List (List Nat)
  | [] => []
  | .evFopen p true :: r => p :: createdFiles r
  | _ :: r => createdFiles r

/-- The pathname arguments handed to the Filesystem Materializer
(`create_dir` / `create_file`) for each extracted entry, in order. -/
def entryPaths : List Ev → List (List Nat)
  | [] => []
  | .evEntryDir p _ :: r => p :: entryPaths r
  | .evEntryFile p _ :: r => p :: entryPaths r
  | _ :: r => entryPaths r

/-- True when every event is an `evWrite`. -/
def onlyWrites : List Ev → Bool
  | [] => true
  | .evWrite _ :: r => onlyWrites r
  | _ :: _ => false

/-- True when the byte list contains no two adjacent path separators. -/
def noDupSlash : List Nat → Bool
  | [] => true
  | [_] => true
  | a :: b :: r => !(a == 47 && b == 47) && noDupSlash (b :: r)

/-- A 512-byte raw ustar header from its name, mode and size fields and type
flag, with spaces in the checksum field and zeros elsewhere. -/
def rawHeader (name mode size : List Nat) (flag : Nat) : List Nat :=
  (name.take 100 ++ List.replicate (100 - name.length) 0) ++
  (mode.take 8 ++ List.replicate (8 - mode.length) 0) ++
  List.replicate 16 0 ++
  (size.take 12 ++ List.replicate (12 - size.length) 0) ++
  List.replicate 12 0 ++
  List.replicate 8 32 ++
  [flag] ++
  List.replicate 355 0

/-- Six-digit octal ASCII rendering of a number below 8^6. -/
def octDigits6 (u : Nat) : List Nat :=
  [48 + u / 32768 % 8, 48 + u / 4096 % 8, 48 + u / 512 % 8,
   48 + u / 64 % 8, 48 + u / 8 % 8, 48 + u % 8]

/-- Fill in the checksum field of a raw header so that the stored octal value
equals the space-substituted sum. -/
def sealHeader (h : List Nat) : List Nat :=
  h.take 148 ++ (octDigits6 (checksumOf h).toNat ++ [0, 32]) ++ h.drop 156

/-- Concrete single-file header: name `a`, mode `00755`, size 5, type `0`. -/
def c1hdr : List Nat := sealHeader (rawHeader [97] [48, 48, 55, 53, 53] [53] 48)

/-- Concrete payload `hello` for the round-trip witness. -/
def c1payload : List Nat := [104, 101, 108, 108, 111]

/-- Concrete file header of declared size 1024 (octal `2000`): name `x`,
mode `00644`, type `0`. -/
def c3hdr : List Nat := sealHeader (rawHeader [120] [48, 48, 54, 52, 52] [50, 48, 48, 48] 48)

/-- A stream whose payload is cut short: the size-1024 header followed by a
single 512-byte block and then end of stream. -/
def c3stream : List Nat := c3hdr ++ List.replicate 512 65

/-- Concrete directory header: name `sub/`, mode `00755`, type `5`. -/
def c8hdr : List Nat :=
  sealHeader (rawHeader [115, 117, 98, 47] [48, 48, 55, 53, 53] [48] 53)

/-- Concrete file header of declared size 5 for the write-failure witness:
name `w`, mode `00644`, type `0`. -/
def c9hdr : List Nat := sealHeader (rawHeader [119] [48, 48, 54, 52, 52] [53] 48)

/-! ### List toolkit -/

theorem getD_eq_some {l : List Nat} {i v d : Nat} (h : l.getD i d = v) (hvd : v ≠ d) :
    l.get? i = some v := by
  rw [List.getD_eq_get?] at h
  cases hg : l.get? i with
  | none => rw [hg] at h; exact absurd h.symm hvd
  | some a => rw [hg] at h; simpa using h

theorem getD_of_get? {l : List Nat} {i v : Nat} (h : l.get? i = some v) (d : Nat) :
    l.getD i d = v := by
  rw [List.getD_eq_get?, h]; rfl

theorem set_get?_self {α : Type} : ∀ (l : List α) (i : Nat) (a : α),
    l.get? i = some a → l.set i a = l
  | [], _, _, h => by simp at h
  | b :: bs, 0, a, h => by simp at h; simp [h]
  | b :: bs, i + 1, a, h => by
      simp only [List.get?] at h
      simp [List.set, set_get?_self bs i a h]

theorem cstr_nil : cstr [] = [] := rfl

theorem cstr_cons (a : Nat) (l : List Nat) :
    cstr (a :: l) = if a = 0 then [] else a :: cstr l := by
  by_cases h : a = 0 <;> simp [cstr, List.takeWhile_cons, h]

theorem cstr_get? (l : List Nat) (i : Nat) (h : i < (cstr l).length) :
    l.get? i = (cstr l).get? i := by
  conv_lhs => rw [← List.takeWhile_append_dropWhile (fun b => b != 0) l]
  exact List.get?_append h

theorem cstr_mem_ne_zero {l : List Nat} {a : Nat} (h : a ∈ cstr l) : a ≠ 0 := by
  have := List.mem_takeWhile_imp h
  simpa using this

theorem cstr_get?_isSome (l : List Nat) (i : Nat) (h : i < (cstr l).length) :
    ∃ a, (cstr l).get? i = some a ∧ a ≠ 0 := by
  cases hg : (cstr l).get? i with
  | none => rw [List.get?_eq_none] at hg; omega
  | some a => exact ⟨a, rfl, cstr_mem_ne_zero (List.get?_mem hg)⟩

theorem cstr_set_zero : ∀ (l : List Nat) (i : Nat), i < (cstr l).length →
    cstr (l.set i 0) = (cstr l).take i
  | [], i, h => by simp [cstr_nil] at h
  | a :: as, i, h => by
    by_cases ha : a = 0
    · rw [cstr_cons, if_pos ha] at h; simp at h
    · rw [cstr_cons, if_neg ha] at h
      cases i with
      | zero => simp [List.set, cstr_cons]
      | succ j =>
        have h' : j < (cstr as).length := by simpa using h
        simp [List.set, cstr_cons, ha, cstr_set_zero as j h']

theorem cstr_length_set_zero (l : List Nat) (i : Nat) (h : i < (cstr l).length) :
    (cstr (l.set i 0)).length = i := by
  rw [cstr_set_zero l i h, List.length_take]
  omega

theorem lastIdx_none {c : Nat} : ∀ {l : List Nat}, lastIdx l c = none →
    ∀ j, l.get? j ≠ some c := by
  intro l
  induction l with
  | nil => intro _ j; simp
  | cons a as ih =>
    intro h j
    simp only [lastIdx] at h
    cases hr : lastIdx as c with
    | some k => rw [hr] at h; simp at h
    | none =>
      rw [hr] at h
      have hac : a ≠ c := by
        by_contra hac
        rw [if_pos hac] at h; simp at h
      cases j with
      | zero => simp [hac]
      | succ m => simpa using ih hr m

theorem lastIdx_spec {c : Nat} : ∀ {l : List Nat} {i : Nat}, lastIdx l c = some i →
    i < l.length ∧ l.get? i = some c ∧ ∀ j, i < j → l.get? j ≠ some c := by
  intro l
  induction l with
  | nil => intro i h; simp [lastIdx] at h
  | cons a as ih =>
    intro i h
    simp only [lastIdx] at h
    cases hr : lastIdx as c with
    | some k =>
      rw [hr] at h
      simp only [Option.some.injEq] at h
      obtain ⟨hk1, hk2, hk3⟩ := ih hr
      subst h
      refine ⟨by simpa using hk1, by simpa using hk2, ?_⟩
      intro j hj
      cases j with
      | zero => omega
      | succ m => simpa using hk3 m (by omega)
    | none =>
      rw [hr] at h
      by_cases hac : a = c
      · rw [if_pos hac] at h
        simp only [Option.some.injEq] at h
        subst h
        refine ⟨by simp, by simp [hac], ?_⟩
        intro j hj
        cases j with
        | zero => omega
        | succ m => simpa using lastIdx_none hr m
      · rw [if_neg hac] at h; simp at h

/-! ### parseoct -/

theorem parseoctSkip_digits {l : List Nat} (h : ∀ c ∈ l, 48 ≤ c ∧ c ≤ 55) :
    parseoctSkip l = l := by
  cases l with
  | nil => rfl
  | cons c cs =>
    have := h c (by simp)
    simp [parseoctSkip, this]

theorem parseoctAcc_digits : ∀ (l : List Nat) (i : Int), (∀ c ∈ l, 48 ≤ c ∧ c ≤ 55) →
    parseoctAcc i l =
      i * (8 : Int) ^ l.length +
        ((Nat.ofDigits 8 ((l.map (fun c => c - 48)).reverse) : Nat) : Int)
  | [], i, _ => by simp [parseoctAcc, Nat.ofDigits]
  | c :: cs, i, h => by
    have hc := h c (by simp)
    have hrec := parseoctAcc_digits cs (i * 8 + ((c : Int) - 48)) (fun x hx => h x (by simp [hx]))
    simp only [parseoctAcc, if_pos hc, hrec]
    rw [List.map_cons, List.reverse_cons, Nat.ofDigits_append]
    push_cast [Nat.ofDigits_singleton]
    have : ((c - 48 : Nat) : Int) = (c : Int) - 48 := by omega
    rw [this]
    simp only [List.length_reverse, List.length_map, List.length_cons]
    ring

theorem parseoctSkip_blank {l : List Nat} (h : ∀ c ∈ l, c = 32 ∨ c = 0) :
    parseoctSkip l = [] := by
  induction l with
  | nil => rfl
  | cons c cs ih =>
    have hc := h c (by simp)
    have : ¬(48 ≤ c ∧ c ≤ 55) := by omega
    simp [parseoctSkip, this, ih (fun x hx => h x (by simp [hx]))]

/-! ### checksum -/

theorem checksumAux_append : ∀ (l1 l2 : List Nat) (n : Nat),
    checksumAux n (l1 ++ l2) = checksumAux n l1 + checksumAux (n + l1.length) l2
  | [], l2, n => by simp [checksumAux]
  | b :: bs, l2, n => by
    simp only [List.cons_append, checksumAux, List.append_eq,
      checksumAux_append bs l2 (n + 1), List.length_cons]
    rw [show n + (bs.length + 1) = n + 1 + bs.length by omega]
    ring

theorem checksumAux_low : ∀ (l : List Nat) (n : Nat), n + l.length ≤ 148 →
    checksumAux n l = unsignedSum l
  | [], n, _ => by simp [checksumAux, unsignedSum]
  | b :: bs, n, h => by
    have : n < 148 ∨ n > 155 := by simp at h; omega
    simp only [checksumAux, if_pos this, unsignedSum, List.map_cons, List.sum_cons]
    rw [checksumAux_low bs (n + 1) (by simp at h ⊢; omega)]
    rfl

theorem checksumAux_high : ∀ (l : List Nat) (n : Nat), 156 ≤ n →
    checksumAux n l = unsignedSum l
  | [], n, _ => by simp [checksumAux, unsignedSum]
  | b :: bs, n, h => by
    have : n < 148 ∨ n > 155 := by omega
    simp only [checksumAux, if_pos this, unsignedSum, List.map_cons, List.sum_cons]
    rw [checksumAux_high bs (n + 1) (by omega)]
    rfl

theorem checksumAux_mid : ∀ (l : List Nat) (n : Nat), 148 ≤ n → n + l.length ≤ 156 →
    checksumAux n l = 32 * l.length
  | [], n, _, _ => by simp [checksumAux]
  | b :: bs, n, h1, h2 => by
    have : ¬(n < 148 ∨ n > 155) := by simp at h2; omega
    simp only [checksumAux, if_neg this, List.length_cons]
    rw [checksumAux_mid bs (n + 1) (by omega) (by simp at h2 ⊢; omega)]
    push_cast
    ring

theorem unsignedSum_append (l1 l2 : List Nat) :
    unsignedSum (l1 ++ l2) = unsignedSum l1 + unsignedSum l2 := by
  simp [unsignedSum]

theorem block_decompose (p : List Nat) :
    p = p.take 148 ++ ((p.drop 148).take 8) ++ p.drop 156 := by
  rw [show (156 : Nat) = 148 + 8 by rfl, ← List.drop_drop, List.append_assoc,
      List.take_append_drop, List.take_append_drop]

theorem checksumOf_spec (p : List Nat) (h : p.length = 512) :
    checksumOf p = unsignedSum (spacedBlock p) := by
  have hl148 : (p.take 148).length = 148 := by simp [h]
  have hl8 : ((p.drop 148).take 8).length = 8 := by simp [h]
  rw [checksumOf, show p.take 512 = p by rw [← h, List.take_length]]
  conv_lhs => rw [block_decompose p]
  rw [checksumAux_append, checksumAux_append, hl148, checksumAux_low _ 0 (by simp [hl148]),
      checksumAux_mid _ 148 (by omega) (by simp [hl8]),
      checksumAux_high _ _ (by simp [hl148, hl8]),
      spacedBlock, unsignedSum_append, unsignedSum_append]
  have : unsignedSum (List.replicate 8 32) = 256 := by decide
  rw [this, hl8]
  norm_num

theorem checksumAux_set : ∀ (l : List Nat) (n i b : Nat), i < l.length →
    ¬(148 ≤ n + i ∧ n + i ≤ 155) →
    checksumAux n (l.set i b) = checksumAux n l + b - l.getD i 0
  | [], n, i, b, h, _ => by simp at h
  | c :: cs, n, 0, b, _, hout => by
    have : n < 148 ∨ n > 155 := by omega
    simp [checksumAux, if_pos this, List.set]
    ring
  | c :: cs, n, i + 1, b, h, hout => by
    simp only [List.set, checksumAux]
    rw [checksumAux_set cs (n + 1) i b (by simpa using h) (by omega)]
    have : (c :: cs).getD (i + 1) 0 = cs.getD i 0 := by
      simp [List.getD_eq_get?, List.get?]
    rw [this]
    ring

theorem verify_checksum_field_stable (p : List Nat) (i b : Nat)
    (hout : i < 148 ∨ 155 < i) :
    ((p.set i b).drop 148).take 8 = (p.drop 148).take 8 := by
  apply List.ext
  intro n
  by_cases hn : n < 8
  · rw [List.get?_take hn, List.get?_take hn, List.get?_drop, List.get?_drop]
    exact List.get?_set_ne b p (by omega)
  · have h8 : ∀ (l : List Nat), (l.take 8).get? n = none := by
      intro l
      rw [List.get?_eq_none]
      have := List.length_take 8 l
      omega
    rw [h8, h8]

/-! ### Event trace toolkit -/

theorem writtenBytes_append : ∀ (l1 l2 : List Ev),
    writtenBytes (l1 ++ l2) = writtenBytes l1 ++ writtenBytes l2
  | [], _ => rfl
  | e :: r, l2 => by
    cases e <;> simp [writtenBytes, writtenBytes_append r l2]

theorem createdFiles_append : ∀ (l1 l2 : List Ev),
    createdFiles (l1 ++ l2) = createdFiles l1 ++ createdFiles l2
  | [], _ => rfl
  | e :: r, l2 => by
    have ih := createdFiles_append r l2
    cases e with
    | evFopen p ok => cases ok <;> simp [createdFiles, ih]
    | evEntryDir p m => simp [createdFiles, ih]
    | evEntryFile p m => simp [createdFiles, ih]
    | evIgnore f p => simp [createdFiles, ih]
    | evMkdir p m ok => simp [createdFiles, ih]
    | evWrite bs => simp [createdFiles, ih]
    | evShortWrite => simp [createdFiles, ih]
    | evClose => simp [createdFiles, ih]

theorem entryPaths_append : ∀ (l1 l2 : List Ev),
    entryPaths (l1 ++ l2) = entryPaths l1 ++ entryPaths l2
  | [], _ => rfl
  | e :: r, l2 => by
    cases e <;> simp [entryPaths, entryPaths_append r l2]

theorem onlyWrites_createdFiles (l : List Ev) (h : onlyWrites l = true) :
    createdFiles l = [] := by
  induction l with
  | nil => rfl
  | cons e r ih =>
    cases e with
    | evWrite bs => simp only [onlyWrites] at h; simp [createdFiles, ih h]
    | evEntryDir p m => simp [onlyWrites] at h
    | evEntryFile p m => simp [onlyWrites] at h
    | evIgnore f p => simp [onlyWrites] at h
    | evMkdir p m ok => simp [onlyWrites] at h
    | evFopen p ok => simp [onlyWrites] at h
    | evShortWrite => simp [onlyWrites] at h
    | evClose => simp [onlyWrites] at h

/-! ### Payload loop -/

theorem drainF_zero (fl : Nat) (o : List Bool) (f : Bool) (s : List Nat) :
    drainF (fl + 1) o f ((0 : Nat) : Int) s = ⟨[], none, f, 0, o, s⟩ := by
  simp [drainF]

theorem drain_zero (o : List Bool) (f : Bool) (s : List Nat) :
    drain o f 0 s = ⟨[], none, f, 0, o, s⟩ := by
  have := drainF_zero s.length o f s
  simpa [drain] using this

theorem ceilBlocks_zero : ceilBlocks 0 = 0 := rfl

theorem ceilBlocks_pos {S : Nat} (h : S ≠ 0) : 1 ≤ ceilBlocks S := by
  unfold ceilBlocks; omega

theorem ceilBlocks_step {S : Nat} (h : S ≠ 0) :
    ceilBlocks (S - 512) = ceilBlocks S - 1 := by
  unfold ceilBlocks; omega

theorem drainF_step_arg (S : Nat) :
    ((S : Nat) : Int) - (if ((S : Nat) : Int) < 512 then ((S : Nat) : Int) else 512) =
      ((S - 512 : Nat) : Int) := by
  split <;> omega

theorem drainF_consumes : ∀ (fuel : Nat), ∀ (S : Nat) (o : List Bool) (f : Bool) (s : List Nat),
    512 * ceilBlocks S ≤ s.length → ceilBlocks S < fuel →
    (drainF fuel o f (S : Int) s).short = none ∧
    (drainF fuel o f (S : Int) s).rem = 0 ∧
    (drainF fuel o f (S : Int) s).stream = s.drop (512 * ceilBlocks S) := by
  intro fuel
  induction fuel with
  | zero => intro S o f s _ h2; omega
  | succ fl ih =>
    intro S o f s h1 h2
    by_cases hS : S = 0
    · subst hS; simp [drainF, ceilBlocks_zero]
    · have hpos : ((S : Nat) : Int) > 0 := by exact_mod_cast Nat.pos_of_ne_zero hS
      have hcb1 : 1 ≤ ceilBlocks S := ceilBlocks_pos hS
      have hlen : ¬(s.length < 512) := by omega
      have hcb' : ceilBlocks (S - 512) = ceilBlocks S - 1 := ceilBlocks_step hS
      have h1' : 512 * ceilBlocks (S - 512) ≤ (s.drop 512).length := by
        simp only [List.length_drop]; omega
      have h2' : ceilBlocks (S - 512) < fl := by omega
      have hstream : (s.drop 512).drop (512 * ceilBlocks (S - 512)) =
          s.drop (512 * ceilBlocks S) := by
        rw [List.drop_drop]; congr 1; omega
      simp only [drainF, if_pos hpos, if_neg hlen, drainF_step_arg S]
      cases f with
      | false =>
        rw [if_neg (by simp : ¬(false = true))]
        obtain ⟨ha, hb, hc⟩ := ih (S - 512) o false (s.drop 512) h1' h2'
        refine ⟨ha, hb, ?_⟩
        rw [hc, hstream]
      | true =>
        rw [if_pos rfl]
        by_cases hok : (takeO o).1 = true
        · rw [if_pos hok]
          obtain ⟨ha, hb, hc⟩ := ih (S - 512) (takeO o).2 true (s.drop 512) h1' h2'
          exact ⟨ha, hb, by rw [hc, hstream]⟩
        · simp only [Bool.not_eq_true] at hok
          rw [if_neg (by simp [hok])]
          obtain ⟨ha, hb, hc⟩ := ih (S - 512) (takeO o).2 false (s.drop 512) h1' h2'
          exact ⟨ha, hb, by rw [hc, hstream]⟩

theorem drainF_closed : ∀ (fuel : Nat), ∀ (S : Nat) (o : List Bool) (s : List Nat),
    512 * ceilBlocks S ≤ s.length → ceilBlocks S < fuel →
    drainF fuel o false (S : Int) s = ⟨[], none, false, 0, o, s.drop (512 * ceilBlocks S)⟩ := by
  intro fuel
  induction fuel with
  | zero => intro S o s _ h2; omega
  | succ fl ih =>
    intro S o s h1 h2
    by_cases hS : S = 0
    · subst hS; simp [drainF, ceilBlocks_zero]
    · have hpos : ((S : Nat) : Int) > 0 := by exact_mod_cast Nat.pos_of_ne_zero hS
      have hcb1 : 1 ≤ ceilBlocks S := ceilBlocks_pos hS
      have hlen : ¬(s.length < 512) := by omega
      have hcb' : ceilBlocks (S - 512) = ceilBlocks S - 1 := ceilBlocks_step hS
      have h1' : 512 * ceilBlocks (S - 512) ≤ (s.drop 512).length := by
        simp only [List.length_drop]; omega
      have h2' : ceilBlocks (S - 512) < fl := by omega
      simp only [drainF, if_pos hpos, if_neg hlen, drainF_step_arg S]
      rw [if_neg (by simp : ¬(false = true)), ih (S - 512) o (s.drop 512) h1' h2',
        List.drop_drop, show 512 + 512 * ceilBlocks (S - 512) = 512 * ceilBlocks S by omega]

theorem drainF_allok : ∀ (fuel : Nat), ∀ (S : Nat) (s : List Nat),
    512 * ceilBlocks S ≤ s.length → ceilBlocks S < fuel →
    ∃ evs, drainF fuel [] true (S : Int) s =
        ⟨evs, none, true, 0, [], s.drop (512 * ceilBlocks S)⟩ ∧
      writtenBytes evs = s.take S ∧ onlyWrites evs = true := by
  intro fuel
  induction fuel with
  | zero => intro S s _ h2; omega
  | succ fl ih =>
    intro S s h1 h2
    by_cases hS : S = 0
    · subst hS
      exact ⟨[], by simp [drainF, ceilBlocks_zero], by simp [writtenBytes], rfl⟩
    · have hpos : ((S : Nat) : Int) > 0 := by exact_mod_cast Nat.pos_of_ne_zero hS
      have hcb1 : 1 ≤ ceilBlocks S := ceilBlocks_pos hS
      have hlen : ¬(s.length < 512) := by omega
      have hcb' : ceilBlocks (S - 512) = ceilBlocks S - 1 := ceilBlocks_step hS
      have h1' : 512 * ceilBlocks (S - 512) ≤ (s.drop 512).length := by
        simp only [List.length_drop]; omega
      have h2' : ceilBlocks (S - 512) < fl := by omega
      obtain ⟨evs', heq, hw, ho⟩ := ih (S - 512) (s.drop 512) h1' h2'
      have htoNat : (if ((S : Nat) : Int) < 512 then ((S : Nat) : Int) else 512).toNat =
          min S 512 := by split <;> omega
      refine ⟨.evWrite ((s.take 512).take (min S 512)) :: evs', ?_, ?_, ?_⟩
      · simp only [drainF, if_pos hpos, if_neg hlen, drainF_step_arg S, htoNat]
        rw [if_pos (show True from trivial), if_pos (show (takeO []).1 = true from rfl)]
        have ho2 : (takeO []).2 = [] := rfl
        rw [ho2, heq, List.drop_drop,
          show 512 + 512 * ceilBlocks (S - 512) = 512 * ceilBlocks S by omega]
      · simp only [writtenBytes, hw]
        rw [List.take_take]
        by_cases hlt : S < 512
        · have hm : min (min S 512) 512 = S := by omega
          have hz : S - 512 = 0 := by omega
          rw [hm, hz]
          simp
        · have hm : min (min S 512) 512 = 512 := by omega
          rw [hm, ← List.take_add]
          congr 1
          omega
      · simpa [onlyWrites] using ho

theorem drainF_failfirst (fuel S : Nat) (o : List Bool) (s : List Nat)
    (hS : 0 < S) (h1 : 512 * ceilBlocks S ≤ s.length) (h2 : ceilBlocks S < fuel) :
    drainF fuel (false :: o) true (S : Int) s =
      ⟨[.evShortWrite, .evClose], none, false, 0, o, s.drop (512 * ceilBlocks S)⟩ := by
  cases fuel with
  | zero => omega
  | succ fl =>
    have hpos : ((S : Nat) : Int) > 0 := by exact_mod_cast hS
    have hcb1 : 1 ≤ ceilBlocks S := ceilBlocks_pos (by omega)
    have hlen : ¬(s.length < 512) := by omega
    have hcb' : ceilBlocks (S - 512) = ceilBlocks S - 1 := ceilBlocks_step (by omega)
    have h1' : 512 * ceilBlocks (S - 512) ≤ (s.drop 512).length := by
      simp only [List.length_drop]; omega
    have h2' : ceilBlocks (S - 512) < fl := by omega
    simp only [drainF, if_pos hpos, if_neg hlen, drainF_step_arg S]
    rw [if_pos (show True from trivial),
      if_neg (by simp [takeO] : ¬((takeO (false :: o)).1 = true))]
    have ho2 : (takeO (false :: o)).2 = o := rfl
    rw [ho2, drainF_closed fl (S - 512) o (s.drop 512) h1' h2', List.drop_drop,
      show 512 + 512 * ceilBlocks (S - 512) = 512 * ceilBlocks S by omega]

theorem drainF_stream_le : ∀ (fuel : Nat), ∀ (o : List Bool) (f : Bool) (n : Int) (s : List Nat),
    ((drainF fuel o f n s).stream).length ≤ s.length := by
  intro fuel
  induction fuel with
  | zero => intro o f n s; simp [drainF]
  | succ fl ih =>
    intro o f n s
    have hdrop : (s.drop 512).length ≤ s.length := by simp [List.length_drop]
    simp only [drainF]
    by_cases hn : n > 0
    · rw [if_pos hn]
      by_cases hs : s.length < 512
      · rw [if_pos hs]
      · rw [if_neg hs]
        cases f with
        | false =>
          rw [if_neg (by simp : ¬(false = true))]
          exact le_trans (ih _ _ _ _) hdrop
        | true =>
          rw [if_pos rfl]
          by_cases hok : (takeO o).1 = true
          · rw [if_pos hok]
            exact le_trans (ih _ _ _ _) hdrop
          · simp only [Bool.not_eq_true] at hok
            rw [if_neg (by simp [hok])]
            exact le_trans (ih _ _ _ _) hdrop
    · rw [if_neg hn]

theorem drain_stream_le (o : List Bool) (f : Bool) (n : Int) (s : List Nat) :
    ((drain o f n s).stream).length ≤ s.length :=
  drainF_stream_le (s.length + 1) o f n s

/-! ### create_dir buffer frame -/

theorem get?_ne_of_getD_ne {l : List Nat} {i : Nat} (h : l.getD i 0 ≠ 47) :
    l.get? i ≠ some 47 := by
  intro hc
  rw [List.getD_eq_get?, hc] at h
  exact h rfl

theorem create_dirF_frame : ∀ (fuel : Nat), ∀ (o : List Bool) (buf : List Nat) (mode : Int),
    (cstr buf).length < fuel →
    cstr buf ≠ [] →
    (cstr buf).get? 0 ≠ some 47 →
    (∀ j, ¬((cstr buf).get? j = some 47 ∧ (cstr buf).get? (j + 1) = some 47)) →
    (cstr buf).get? ((cstr buf).length - 1) ≠ some 47 →
    (create_dirF fuel o buf mode).buf = buf := by
  intro fuel
  induction fuel with
  | zero => intro o buf mode hf _ _ _ _; omega
  | succ fl ih =>
    intro o buf mode hf hne hhead hadj hlast
    have hn : 0 < (cstr buf).length := List.length_pos.mpr hne
    have hg : buf.get? ((cstr buf).length - 1) = (cstr buf).get? ((cstr buf).length - 1) :=
      cstr_get? buf _ (by omega)
    obtain ⟨a, ha, ha0⟩ := cstr_get?_isSome buf ((cstr buf).length - 1) (by omega)
    have ha47 : a ≠ 47 := fun hc => hlast (hc ▸ ha)
    have hguard : ¬(0 < (cstr buf).length ∧ buf.getD ((cstr buf).length - 1) 0 = 47) := by
      rintro ⟨-, hc⟩
      rw [getD_of_get? (hg.trans ha)] at hc
      exact ha47 hc
    simp only [create_dirF]
    rw [if_neg hguard]
    by_cases hok : (takeO o).1 = true
    · rw [if_pos hok]
    · rw [if_neg hok]
      cases hl : lastIdx (cstr buf) 47 with
      | none => simp
      | some i =>
        obtain ⟨hi_lt, hi_eq, hi_after⟩ := lastIdx_spec hl
        have hi1 : 1 ≤ i := by
          rcases Nat.eq_zero_or_pos i with h0 | h1
          · exact absurd (h0 ▸ hi_eq) hhead
          · exact h1
        have hcb2 : cstr (buf.set i 0) = (cstr buf).take i := cstr_set_zero buf i hi_lt
        have hlen2 : (cstr (buf.set i 0)).length = i := cstr_length_set_zero buf i hi_lt
        have htake : ∀ j, j < i → ((cstr buf).take i).get? j = (cstr buf).get? j :=
          fun j hj => List.get?_take hj
        have hd : (create_dirF fl (takeO o).2 (buf.set i 0) 493).buf = buf.set i 0 := by
          apply ih
          · omega
          · intro hc; rw [hc] at hlen2; simp at hlen2; omega
          · rw [hcb2, htake 0 hi1]; exact hhead
          · intro j
            rintro ⟨hj1, hj2⟩
            have hj2len := (List.get?_eq_some.mp hj2).1
            have hjlt : j + 1 < i := by
              have := List.length_take_le i (cstr buf)
              rw [hcb2] at hj2len
              omega
            rw [hcb2, htake j (by omega)] at hj1
            rw [hcb2, htake (j + 1) hjlt] at hj2
            exact hadj j ⟨hj1, hj2⟩
          · rw [hlen2, hcb2, htake (i - 1) (by omega)]
            intro hc
            exact hadj (i - 1) ⟨hc, by rw [show i - 1 + 1 = i by omega]; exact hi_eq⟩
        have hbuf47 : buf.get? i = some 47 := by
          rw [cstr_get? buf i hi_lt]; exact hi_eq
        simp only [hd, List.set_set]
        exact set_get?_self buf i 47 hbuf47

theorem create_dirF_strip (fuel : Nat) (o : List Bool) (buf : List Nat) (mode : Int)
    (hcond : 0 < (cstr buf).length ∧ buf.getD ((cstr buf).length - 1) 0 = 47)
    (hcond2 : ¬(0 < (cstr (buf.set ((cstr buf).length - 1) 0)).length ∧
      (buf.set ((cstr buf).length - 1) 0).getD
        ((cstr (buf.set ((cstr buf).length - 1) 0)).length - 1) 0 = 47)) :
    create_dirF (fuel + 1) o buf mode =
      create_dirF (fuel + 1) o (buf.set ((cstr buf).length - 1) 0) mode := by
  conv_lhs => simp only [create_dirF]
  conv_rhs => simp only [create_dirF]
  rw [if_pos hcond, if_neg hcond2]

theorem noDupSlash_adj : ∀ (s : List Nat), noDupSlash s = true →
    ∀ j, ¬(s.get? j = some 47 ∧ s.get? (j + 1) = some 47)
  | [], _, j => by simp
  | [a], _, j => by
    rintro ⟨h1, h2⟩
    cases j with
    | zero => simp at h2
    | succ m => simp at h1
  | a :: b :: r, h, j => by
    rintro ⟨h1, h2⟩
    simp only [noDupSlash, Bool.and_eq_true, Bool.not_eq_true'] at h
    obtain ⟨hab, hrest⟩ := h
    cases j with
    | zero =>
      simp only [List.get?] at h1 h2
      cases h1
      cases h2
      simp at hab
    | succ m =>
      exact noDupSlash_adj (b :: r) hrest m ⟨by simpa using h1, by simpa using h2⟩

theorem create_dir_frame_full (o : List Bool) (buf : List Nat) (mode : Int)
    (h1 : cstr buf ≠ [])
    (h2 : (cstr buf).getD 0 0 ≠ 47)
    (h3 : noDupSlash (cstr buf) = true) :
    (create_dir o buf mode).buf =
      if (cstr buf).getD ((cstr buf).length - 1) 0 = 47
      then buf.set ((cstr buf).length - 1) 0 else buf := by
  have hn : 0 < (cstr buf).length := List.length_pos.mpr h1
  have hhead : (cstr buf).get? 0 ≠ some 47 := get?_ne_of_getD_ne h2
  have hadj := noDupSlash_adj (cstr buf) h3
  by_cases hA : (cstr buf).getD ((cstr buf).length - 1) 0 = 47
  · rw [if_pos hA]
    have hlast47 : (cstr buf).get? ((cstr buf).length - 1) = some 47 :=
      getD_eq_some hA (by decide)
    have hn2 : 2 ≤ (cstr buf).length := by
      rcases Nat.lt_or_ge (cstr buf).length 2 with hlt | hge
      · exfalso
        have h10 : (cstr buf).length - 1 = 0 := by omega
        rw [h10] at hlast47
        exact hhead hlast47
      · exact hge
    have hbufgetD : buf.getD ((cstr buf).length - 1) 0 = 47 := by
      apply getD_of_get?
      rw [cstr_get? buf _ (by omega)]
      exact hlast47
    have hcb' : cstr (buf.set ((cstr buf).length - 1) 0) =
        (cstr buf).take ((cstr buf).length - 1) :=
      cstr_set_zero buf _ (by omega)
    have hlen' : (cstr (buf.set ((cstr buf).length - 1) 0)).length =
        (cstr buf).length - 1 :=
      cstr_length_set_zero buf _ (by omega)
    have hlast' : (cstr buf).get? ((cstr buf).length - 2) ≠ some 47 := by
      intro hc
      refine hadj ((cstr buf).length - 2) ⟨hc, ?_⟩
      rw [show (cstr buf).length - 2 + 1 = (cstr buf).length - 1 by omega]
      exact hlast47
    have hcond2 : ¬(0 < (cstr (buf.set ((cstr buf).length - 1) 0)).length ∧
        (buf.set ((cstr buf).length - 1) 0).getD
          ((cstr (buf.set ((cstr buf).length - 1) 0)).length - 1) 0 = 47) := by
      rintro ⟨-, hc⟩
      have hidx : (cstr (buf.set ((cstr buf).length - 1) 0)).length - 1 =
          (cstr buf).length - 2 := by omega
      rw [hidx] at hc
      have hget : (buf.set ((cstr buf).length - 1) 0).get? ((cstr buf).length - 2) =
          (cstr buf).get? ((cstr buf).length - 2) := by
        rw [cstr_get? _ _ (by rw [hlen']; omega), hcb', List.get?_take (by omega)]
      have h47 : (buf.set ((cstr buf).length - 1) 0).get? ((cstr buf).length - 2) =
          some 47 := getD_eq_some hc (by decide)
      rw [hget] at h47
      exact hlast' h47
    calc (create_dir o buf mode).buf
        = (create_dirF ((cstr buf).length + 1) o buf mode).buf := rfl
      _ = (create_dirF ((cstr buf).length + 1) o
            (buf.set ((cstr buf).length - 1) 0) mode).buf := by
          rw [create_dirF_strip ((cstr buf).length) o buf mode ⟨hn, hbufgetD⟩ hcond2]
      _ = buf.set ((cstr buf).length - 1) 0 := by
          apply create_dirF_frame
          · rw [hlen']; omega
          · intro hcnil
            rw [hcnil] at hlen'
            simp at hlen'
            omega
          · rw [hcb', List.get?_take (by omega)]
            exact hhead
          · intro j
            rintro ⟨hj1, hj2⟩
            have hj2len := (List.get?_eq_some.mp hj2).1
            have hjlt : j + 1 < (cstr buf).length - 1 := by
              have htl := List.length_take ((cstr buf).length - 1) (cstr buf)
              rw [hcb'] at hj2len
              omega
            rw [hcb', List.get?_take (by omega)] at hj1
            rw [hcb', List.get?_take hjlt] at hj2
            exact hadj j ⟨hj1, hj2⟩
          · rw [hlen', hcb', List.get?_take (by omega),
              show (cstr buf).length - 1 - 1 = (cstr buf).length - 2 by omega]
            exact hlast'
  · rw [if_neg hA]
    show (create_dirF ((cstr buf).length + 1) o buf mode).buf = buf
    exact create_dirF_frame ((cstr buf).length + 1) o buf mode (by omega) h1 hhead hadj
      (get?_ne_of_getD_ne hA)

/-! ### untar main loop -/

theorem untarF_fopen_closed : ∀ (fuel : Nat) (o : List Bool) (s : List Nat),
    (untarF fuel o s).stop.isShortPayload = false → (untarF fuel o s).fOpen = false := by
  intro fuel
  induction fuel with
  | zero => intro o s _; rfl
  | succ fl ih =>
    intro o s h
    simp only [untarF] at h ⊢
    by_cases hlen : s.length < 512
    · rw [if_pos hlen]
    · rw [if_neg hlen] at h ⊢
      by_cases heoa : is_end_of_archive (s.take 512) = true
      · rw [if_pos heoa]
      · rw [if_neg heoa] at h ⊢
        by_cases hver : verify_checksum (s.take 512) = true
        · rw [if_pos hver] at h ⊢
          cases hr : (drain (dispatch (s.take 512) o).oracle (dispatch (s.take 512) o).fOpen
              (dispatch (s.take 512) o).filesize (s.drop 512)).short with
          | some got =>
            rw [hr] at h
            simp [Stop.isShortPayload] at h
          | none =>
            rw [hr] at h
            exact ih _ _ h
        · rw [if_neg hver]

theorem untarF_mono : ∀ (f1 : Nat), ∀ (f2 : Nat) (o : List Bool) (s : List Nat),
    s.length < 512 * f1 → s.length < 512 * f2 → untarF f1 o s = untarF f2 o s := by
  intro f1
  induction f1 with
  | zero => intro f2 o s h1 _; omega
  | succ a ih =>
    intro f2 o s h1 h2
    cases f2 with
    | zero => omega
    | succ b =>
      simp only [untarF]
      by_cases hlen : s.length < 512
      · rw [if_pos hlen, if_pos hlen]
      · rw [if_neg hlen, if_neg hlen]
        by_cases heoa : is_end_of_archive (s.take 512) = true
        · rw [if_pos heoa, if_pos heoa]
        · rw [if_neg heoa, if_neg heoa]
          by_cases hver : verify_checksum (s.take 512) = true
          · rw [if_pos hver, if_pos hver]
            set d := dispatch (s.take 512) o with hd
            set r := drain d.oracle d.fOpen d.filesize (s.drop 512) with hrdef
            cases hr : r.short with
            | some got => rfl
            | none =>
              have hsl : r.stream.length ≤ (s.drop 512).length := by
                rw [hrdef]
                exact drain_stream_le _ _ _ _
              have hdl : (s.drop 512).length = s.length - 512 := by simp
              rw [ih b r.oracle r.stream (by omega) (by omega)]
          · rw [if_neg hver, if_neg hver]

theorem untar_short (o : List Bool) (s : List Nat) (h : s.length < 512) :
    untar o s = ⟨[], .shortHeader s.length, false, o, s⟩ := by
  show untarF (s.length + 1) o s = _
  simp only [untarF]
  rw [if_pos h]

theorem untar_eoa (o : List Bool) (hdr rest : List Nat) (h1 : hdr.length = 512)
    (h2 : is_end_of_archive hdr = true) :
    untar o (hdr ++ rest) = ⟨[], .eoa, false, o, rest⟩ := by
  show untarF ((hdr ++ rest).length + 1) o (hdr ++ rest) = _
  simp only [untarF]
  rw [if_neg (by rw [List.length_append, h1]; omega), List.take_left' h1,
    List.drop_left' h1, if_pos h2]

theorem untar_entry_cont (o : List Bool) (hdr tail : List Nat) (d : DispRes) (r : DrainRes)
    (h1 : hdr.length = 512) (h2 : is_end_of_archive hdr = false)
    (h3 : verify_checksum hdr = true)
    (hd : dispatch hdr o = d)
    (hr : drain d.oracle d.fOpen d.filesize tail = r)
    (hshort : r.short = none) :
    untar o (hdr ++ tail) =
      ⟨d.evs ++ r.evs ++ (if r.fOpen then [Ev.evClose] else []) ++
         (untar r.oracle r.stream).evs,
       (untar r.oracle r.stream).stop, (untar r.oracle r.stream).fOpen,
       (untar r.oracle r.stream).oracle, (untar r.oracle r.stream).stream⟩ := by
  show untarF ((hdr ++ tail).length + 1) o (hdr ++ tail) = _
  simp only [untarF]
  rw [if_neg (by rw [List.length_append, h1]; omega), List.take_left' h1, List.drop_left' h1,
    h2, if_neg (by simp), h3, if_pos rfl, hd, hr, hshort]
  have hrl : r.stream.length ≤ tail.length := by
    rw [← hr]
    exact drain_stream_le _ _ _ _
  have hmono : untarF ((hdr ++ tail).length) r.oracle r.stream =
      untar r.oracle r.stream := by
    apply untarF_mono
    · rw [List.length_append, h1]; omega
    · omega
  rw [hmono]

theorem untar_entry_short (o : List Bool) (hdr tail : List Nat) (d : DispRes) (r : DrainRes)
    (got : Nat)
    (h1 : hdr.length = 512) (h2 : is_end_of_archive hdr = false)
    (h3 : verify_checksum hdr = true)
    (hd : dispatch hdr o = d)
    (hr : drain d.oracle d.fOpen d.filesize tail = r)
    (hshort : r.short = some got) :
    untar o (hdr ++ tail) = ⟨d.evs ++ r.evs, .shortPayload got, r.fOpen, r.oracle, r.stream⟩ := by
  show untarF ((hdr ++ tail).length + 1) o (hdr ++ tail) = _
  simp only [untarF]
  rw [if_neg (by rw [List.length_append, h1]; omega), List.take_left' h1, List.drop_left' h1,
    h2, if_neg (by simp), h3, if_pos rfl, hd, hr, hshort]

/-! ### Dispatch helpers -/

theorem is_end_false_of_getD {p : List Nat} {c : Nat} (h : p.getD 156 0 = c) (hc : c ≠ 0) :
    is_end_of_archive p = false := by
  have hsome : p.get? 156 = some c := getD_eq_some h hc
  have h512 : (p.take 512).get? 156 = some c := by
    rw [List.get?_take (by omega)]
    exact hsome
  have hmem : c ∈ p.take 512 := List.get?_mem h512
  simp only [is_end_of_archive]
  rw [Bool.eq_false_iff]
  intro hall
  rw [List.all_eq_true] at hall
  have := hall c hmem
  simp at this
  exact hc this

theorem create_file_ok (o : List Bool) (buf : List Nat) (mode : Int)
    (h : (takeO o).1 = true) :
    create_file o buf mode = ⟨[.evFopen (cstr buf) true], buf, (takeO o).2, true⟩ := by
  simp only [create_file]
  rw [if_pos h]

theorem create_dir_ok (o : List Bool) (buf : List Nat) (mode : Int)
    (h : (takeO o).1 = true) (hne : cstr buf ≠ []) :
    (create_dir o buf mode).evs = [.evMkdir (stripSlash (cstr buf)) mode true] ∧
    (create_dir o buf mode).oracle = (takeO o).2 := by
  have hn : 0 < (cstr buf).length := List.length_pos.mpr hne
  have hgd : buf.getD ((cstr buf).length - 1) 0 = (cstr buf).getD ((cstr buf).length - 1) 0 := by
    rw [List.getD_eq_get?, List.getD_eq_get?, cstr_get? buf _ (by omega)]
  show ((create_dirF ((cstr buf).length + 1) o buf mode).evs = _) ∧
    ((create_dirF ((cstr buf).length + 1) o buf mode).oracle = _)
  simp only [create_dirF]
  rw [if_pos h]
  by_cases hsl : (cstr buf).getD ((cstr buf).length - 1) 0 = 47
  · rw [if_pos ⟨hn, hgd.trans hsl⟩]
    rw [cstr_set_zero buf _ (by omega), stripSlash, if_pos hsl, List.dropLast_eq_take]
    exact ⟨rfl, rfl⟩
  · rw [if_neg (by rintro ⟨-, hc⟩; exact hsl (hgd.symm.trans hc))]
    rw [stripSlash, if_neg hsl]
    exact ⟨rfl, rfl⟩

theorem dispatch_reg (hdr : List Nat) (o : List Bool) (h : hdr.getD 156 0 = 48) :
    dispatch hdr o = ⟨.evEntryFile (cstr hdr) (parseoct ((hdr.drop 100).take 8)) ::
        (create_file o hdr (parseoct ((hdr.drop 100).take 8))).evs,
      parseoct ((hdr.drop 124).take 12),
      (create_file o hdr (parseoct ((hdr.drop 100).take 8))).fOpen,
      (create_file o hdr (parseoct ((hdr.drop 100).take 8))).oracle⟩ := by
  simp only [dispatch]
  rw [h]
  simp

theorem dispatch_dir (hdr : List Nat) (o : List Bool) (h : hdr.getD 156 0 = 53) :
    dispatch hdr o = ⟨.evEntryDir (cstr hdr) (parseoct ((hdr.drop 100).take 8)) ::
        (create_dir o hdr (parseoct ((hdr.drop 100).take 8))).evs,
      0, false, (create_dir o hdr (parseoct ((hdr.drop 100).take 8))).oracle⟩ := by
  simp only [dispatch]
  rw [h]
  simp

/-! ### Remaining helpers -/

theorem cstr_take : ∀ (l : List Nat) (k j : Nat), j < k → l.getD j 1 = 0 →
    cstr l = cstr (l.take k)
  | [], k, j, _, _ => by simp
  | a :: as, k, j, hj, h0 => by
    cases k with
    | zero => omega
    | succ k' =>
      by_cases ha : a = 0
      · simp [List.take, cstr_cons, ha]
      · cases j with
        | zero => simp [List.getD_eq_get?] at h0; exact absurd h0 ha
        | succ m =>
          have h0' : as.getD m 1 = 0 := by
            simpa [List.getD_eq_get?, List.get?] using h0
          simp [List.take, cstr_cons, ha, cstr_take as k' m (by omega) h0']

theorem padTo512_length (l : List Nat) :
    (padTo512 l).length = 512 * ceilBlocks l.length := by
  simp only [padTo512, List.length_append, List.length_replicate, ceilBlocks]
  omega

theorem create_dirF_entryPaths : ∀ (fuel : Nat) (o : List Bool) (buf : List Nat) (mode : Int),
    entryPaths (create_dirF fuel o buf mode).evs = [] := by
  intro fuel
  induction fuel with
  | zero => intro o buf mode; rfl
  | succ fl ih =>
    intro o buf mode
    simp only [create_dirF]
    by_cases hok : (takeO o).1 = true
    · rw [if_pos hok]
      rfl
    · rw [if_neg hok]
      cases hl : lastIdx (cstr (if 0 < (cstr buf).length ∧
          buf.getD ((cstr buf).length - 1) 0 = 47
          then buf.set ((cstr buf).length - 1) 0 else buf)) 47 with
      | none => rfl
      | some i => simp [entryPaths, entryPaths_append, ih]

theorem create_dir_entryPaths (o : List Bool) (buf : List Nat) (mode : Int) :
    entryPaths (create_dir o buf mode).evs = [] :=
  create_dirF_entryPaths ((cstr buf).length + 1) o buf mode

theorem create_file_entryPaths (o : List Bool) (buf : List Nat) (mode : Int) :
    entryPaths (create_file o buf mode).evs = [] := by
  simp only [create_file]
  by_cases hok : (takeO o).1 = true
  · rw [if_pos hok]
    rfl
  · rw [if_neg hok]
    cases hl : lastIdx (cstr buf) 47 with
    | none => rfl
    | some i => simp [entryPaths, entryPaths_append, create_dir_entryPaths]

theorem zeroBlock_length : zeroBlock.length = 512 := by simp [zeroBlock]

theorem zeroBlock_is_end : is_end_of_archive zeroBlock = true := by decide

/-! ### Claim theorems -/

/-- C4: for every byte range containing only octal digit characters
`'0'..'7'`, `parseoct` returns the standard base-8 value of those digits; for
a field consisting entirely of spaces or NUL bytes it returns 0 without
signaling an error. -/
theorem parseoct_octal_and_blank :
    (∀ l : List Nat, (∀ c ∈ l, 48 ≤ c ∧ c ≤ 55) →
      parseoct l = ((Nat.ofDigits 8 ((l.map (fun c => c - 48)).reverse) : Nat) : Int)) ∧
    (∀ l : List Nat, (∀ c ∈ l, c = 32 ∨ c = 0) → parseoct l = 0) := by
  constructor
  · intro l h
    rw [parseoct, parseoctSkip_digits h, parseoctAcc_digits l 0 h]
    simp
  · intro l h
    rw [parseoct, parseoctSkip_blank h]
    rfl

/-- Witness for C4 at the digit string `175` (base-8 value 125) and an
all-blank field. -/
theorem parseoct_octal_and_blank_witness :
    parseoct [49, 55, 53] =
      ((Nat.ofDigits 8 (([49, 55, 53].map (fun c => c - 48)).reverse) : Nat) : Int) ∧
    parseoct [32, 32, 0] = 0 :=
  ⟨parseoct_octal_and_blank.1 [49, 55, 53] (by decide),
   parseoct_octal_and_blank.2 [32, 32, 0] (by decide)⟩

/-- C2: `verify_checksum(block)` returns true iff the value parsed from the
checksum field (offset 148, 8 bytes, octal) equals the unsigned sum of all
512 bytes with each of the 8 checksum-field bytes replaced by `0x20`; and
changing any single byte outside the checksum field of a verifying block
without updating the stored checksum makes it return false. -/
theorem verify_checksum_characterization (p : List Nat) (h : p.length = 512) :
    (verify_checksum p = true ↔
      parseoct ((p.drop 148).take 8) = unsignedSum (spacedBlock p)) ∧
    (∀ i b, i < 512 → (i < 148 ∨ 155 < i) → b ≠ p.getD i 0 → verify_checksum p = true →
      verify_checksum (p.set i b) = false) := by
  have hsum : checksumOf p = unsignedSum (spacedBlock p) := checksumOf_spec p h
  constructor
  · rw [verify_checksum, hsum]
    constructor
    · intro hb
      exact (beq_iff_eq.mp hb).symm
    · intro he
      exact beq_iff_eq.mpr he.symm
  · intro i b hi hout hb hv
    have hself : p.take 512 = p := by rw [← h, List.take_length]
    have hselfset : (p.set i b).take 512 = p.set i b := by
      rw [show (512 : Nat) = (p.set i b).length by rw [List.length_set]; omega,
        List.take_length]
    have hset : checksumOf (p.set i b) = checksumOf p + b - p.getD i 0 := by
      rw [checksumOf, checksumOf, hself, hselfset]
      exact checksumAux_set p 0 i b (by omega) (by omega)
    rw [verify_checksum] at hv
    have hveq : checksumOf p = parseoct ((p.drop 148).take 8) := beq_iff_eq.mp hv
    rw [verify_checksum, verify_checksum_field_stable p i b hout, hset, Bool.eq_false_iff]
    intro hc
    have := beq_iff_eq.mp hc
    omega

/-- Witness for C2 at a concrete sealed header block: it verifies, and
changing its first byte (name byte `a` to `b`) breaks verification. -/
theorem verify_checksum_characterization_witness :
    (verify_checksum c1hdr = true ↔
      parseoct ((c1hdr.drop 148).take 8) = unsignedSum (spacedBlock c1hdr)) ∧
    verify_checksum (c1hdr.set 0 98) = false :=
  ⟨(verify_checksum_characterization c1hdr (by decide)).1,
   (verify_checksum_characterization c1hdr (by decide)).2 0 98 (by decide) (by decide)
     (by decide) (by decide)⟩

/-- C7: a header block whose 512 bytes are all zero terminates extraction
normally (`eoa`), with no filesystem events and without reading any of the
bytes that follow the zero block. -/
theorem untar_zero_block_terminal (o : List Bool) (rest : List Nat) :
    untar o (zeroBlock ++ rest) = ⟨[], .eoa, false, o, rest⟩ :=
  untar_eoa o zeroBlock rest zeroBlock_length zeroBlock_is_end

/-- C6 (amended): after each payload block the remaining-byte counter is
decremented by the clipped size `min(remaining, 512)` — which equals 512 on
all but the final block — and in consequence the loop consumes exactly
`ceil(size/512)` payload blocks: given that many blocks it reports no short
read, ends with the counter at 0, and leaves exactly the rest of the
stream. -/
theorem drain_consumes_ceil_blocks (S : Nat) (o : List Bool) (f : Bool) (s : List Nat)
    (h : 512 * ceilBlocks S ≤ s.length) :
    (drain o f (S : Int) s).short = none ∧ (drain o f (S : Int) s).rem = 0 ∧
    (drain o f (S : Int) s).stream = s.drop (512 * ceilBlocks S) := by
  have hfuel : ceilBlocks S < s.length + 1 := by omega
  exact drainF_consumes (s.length + 1) S o f s h hfuel

/-- Witness for the amended C6 at declared size 5 with one block. -/
theorem drain_consumes_ceil_blocks_witness :
    512 * ceilBlocks 5 ≤ (List.replicate 512 55 : List Nat).length ∧
    ((drain [] true ((5 : Nat) : Int) (List.replicate 512 55)).short = none ∧
     (drain [] true ((5 : Nat) : Int) (List.replicate 512 55)).rem = 0 ∧
     (drain [] true ((5 : Nat) : Int) (List.replicate 512 55)).stream =
       (List.replicate 512 55 : List Nat).drop (512 * ceilBlocks 5)) :=
  ⟨by decide, drain_consumes_ceil_blocks 5 [] true (List.replicate 512 55) (by decide)⟩

/-- C6 counterexample: for an entry of declared size 5, after its (single)
payload block the remaining counter is 0 — it was decremented by the clipped
write size 5, not by the full block size 512, which would have left
`5 - 512`. -/
theorem drain_decrement_clipped_counterexample :
    (drain [] true 5 (List.replicate 512 55)).rem = 0 ∧
    (drain [] true 5 (List.replicate 512 55)).rem ≠ 5 - 512 :=
  ⟨by decide, by decide⟩

/-- C10 (amended): for a path buffer whose C string is nonempty, does not
begin with `/`, and contains no doubled `//`, `create_dir` returns the buffer
unchanged except that a single trailing `/` (when present) is replaced by a
NUL terminator. -/
theorem create_dir_buffer_frame (o : List Bool) (buf : List Nat) (mode : Int)
    (h1 : cstr buf ≠ [])
    (h2 : (cstr buf).getD 0 0 ≠ 47)
    (h3 : noDupSlash (cstr buf) = true) :
    (create_dir o buf mode).buf =
      if (cstr buf).getD ((cstr buf).length - 1) 0 = 47
      then buf.set ((cstr buf).length - 1) 0 else buf :=
  create_dir_frame_full o buf mode h1 h2 h3

/-- Witness for the amended C10 at the buffer `dir/` with a failing mkdir. -/
theorem create_dir_buffer_frame_witness :
    cstr [100, 105, 114, 47] ≠ [] ∧
    (create_dir [false] [100, 105, 114, 47] 493).buf =
      (if (cstr [100, 105, 114, 47]).getD ((cstr [100, 105, 114, 47]).length - 1) 0 = 47
       then List.set [100, 105, 114, 47] ((cstr [100, 105, 114, 47]).length - 1) 0
       else [100, 105, 114, 47]) :=
  ⟨by decide,
   create_dir_buffer_frame [false] [100, 105, 114, 47] 493 (by decide) (by decide) (by decide)⟩

/-- C10 counterexample: on the buffer `a//b` (no trailing slash, so the claim
asserts the buffer is returned unchanged) with `mkdir` failing, `create_dir`
returns `a NUL / b`: the recursion's trailing-slash strip of the truncated
parent `a/` wrote a NUL at index 1 that is never restored. -/
theorem create_dir_buffer_corruption :
    (create_dir [false, false, false] [97, 47, 47, 98] 493).buf = [97, 0, 47, 98] ∧
    ([97, 0, 47, 98] : List Nat) ≠ [97, 47, 47, 98] ∧
    (cstr [97, 47, 47, 98]).getD ((cstr [97, 47, 47, 98]).length - 1) 0 ≠ 47 :=
  ⟨by decide, by decide, by decide⟩

/-- C3 (amended): on every exit path of `untar` other than a short read on a
payload block — normal completion of an entry, end of archive, header short
read, checksum failure, or a short write — any open output handle has been
closed (and it is closed before the next header is read, since each entry's
processing starts with no open handle); but a short read on a payload block
returns from `untar` with the handle left open. -/
theorem untar_handle_closed_unless_short_payload (o : List Bool) (s : List Nat)
    (h : (untar o s).stop.isShortPayload = false) :
    (untar o s).fOpen = false :=
  untarF_fopen_closed (s.length + 1) o s h

/-- Witness for the amended C3 on the empty stream (header short read). -/
theorem untar_handle_closed_unless_short_payload_witness :
    (untar [] []).stop.isShortPayload = false ∧ (untar [] []).fOpen = false :=
  ⟨by decide, untar_handle_closed_unless_short_payload [] [] (by decide)⟩

/-- C3 counterexample: a valid size-1024 file header followed by one payload
block and then end of stream.  The payload loop hits a short read and `untar`
returns with the output handle still open (untar.c lines 251-257 return
without the `fclose`). -/
theorem untar_leaves_handle_open_on_short_payload :
    (untar [] c3stream).stop = .shortPayload 0 ∧ (untar [] c3stream).fOpen = true :=
  ⟨by decide, by decide⟩

/-- C5: for every extracted directory or regular-file entry of a header whose
name field (offset 0, up to 100 bytes) is NUL-padded, the pathname argument
handed to the Filesystem Materializer (`create_dir` / `create_file`) is
exactly the string encoded in the name field — no other header bytes
contribute to it. -/
theorem entry_path_is_name_field (hdr : List Nat) (o : List Bool)
    (h : ∃ j, j < 100 ∧ hdr.getD j 1 = 0) :
    ∀ q ∈ entryPaths (dispatch hdr o).evs, q = nameField hdr := by
  obtain ⟨j, hj, hj0⟩ := h
  have hname : cstr hdr = nameField hdr := by
    rw [nameField]
    exact cstr_take hdr 100 j hj hj0
  simp only [dispatch]
  by_cases hc1 : hdr.getD 156 0 = 49
  · rw [if_pos hc1]
    intro q hq
    simp [entryPaths] at hq
  · rw [if_neg hc1]
    by_cases hc2 : hdr.getD 156 0 = 50
    · rw [if_pos hc2]
      intro q hq
      simp [entryPaths] at hq
    · rw [if_neg hc2]
      by_cases hc3 : hdr.getD 156 0 = 51
      · rw [if_pos hc3]
        intro q hq
        simp [entryPaths] at hq
      · rw [if_neg hc3]
        by_cases hc4 : hdr.getD 156 0 = 52
        · rw [if_pos hc4]
          intro q hq
          simp [entryPaths] at hq
        · rw [if_neg hc4]
          by_cases hc5 : hdr.getD 156 0 = 53
          · rw [if_pos hc5]
            intro q hq
            simp only [entryPaths, create_dir_entryPaths] at hq
            rw [← hname]
            simpa using hq
          · rw [if_neg hc5]
            by_cases hc6 : hdr.getD 156 0 = 54
            · rw [if_pos hc6]
              intro q hq
              simp [entryPaths] at hq
            · rw [if_neg hc6]
              intro q hq
              simp only [entryPaths, create_file_entryPaths] at hq
              rw [← hname]
              simpa using hq

/-- Witness for C5 at the concrete directory header `sub/`. -/
theorem entry_path_is_name_field_witness :
    (∃ j, j < 100 ∧ c8hdr.getD j 1 = 0) ∧
    ∀ q ∈ entryPaths (dispatch c8hdr []).evs, q = nameField c8hdr :=
  ⟨⟨4, by decide, by decide⟩, entry_path_is_name_field c8hdr [] ⟨4, by decide, by decide⟩⟩

/-- C8: a directory entry (type flag `'5'`, nonempty name) creates the
directory with any trailing `/` stripped from the name, consumes zero payload
blocks regardless of the value in the size field, and extraction continues
with the very next block of the stream. -/
theorem untar_directory_entry (hdr rest : List Nat) (o : List Bool)
    (h1 : hdr.length = 512) (h2 : verify_checksum hdr = true)
    (h3 : hdr.getD 156 0 = 53) (h4 : cstr hdr ≠ []) :
    untar (true :: o) (hdr ++ rest) =
      ⟨[.evEntryDir (cstr hdr) (parseoct ((hdr.drop 100).take 8)),
        .evMkdir (stripSlash (cstr hdr)) (parseoct ((hdr.drop 100).take 8)) true] ++
          (untar o rest).evs,
       (untar o rest).stop, (untar o rest).fOpen, (untar o rest).oracle,
       (untar o rest).stream⟩ := by
  have heoa : is_end_of_archive hdr = false := is_end_false_of_getD h3 (by decide)
  have hcd := create_dir_ok (true :: o) hdr (parseoct ((hdr.drop 100).take 8)) rfl h4
  have hd : dispatch hdr (true :: o) =
      ⟨[.evEntryDir (cstr hdr) (parseoct ((hdr.drop 100).take 8)),
        .evMkdir (stripSlash (cstr hdr)) (parseoct ((hdr.drop 100).take 8)) true],
       0, false, o⟩ := by
    rw [dispatch_dir hdr (true :: o) h3, hcd.1, hcd.2]
    rfl
  have hmain := untar_entry_cont (true :: o) hdr rest
    ⟨[.evEntryDir (cstr hdr) (parseoct ((hdr.drop 100).take 8)),
      .evMkdir (stripSlash (cstr hdr)) (parseoct ((hdr.drop 100).take 8)) true],
     0, false, o⟩
    ⟨[], none, false, 0, o, rest⟩
    h1 heoa h2 hd (drain_zero o false rest) rfl
  simpa using hmain

/-- Witness for C8 at the concrete directory header `sub/` followed by end of
stream. -/
theorem untar_directory_entry_witness :
    verify_checksum c8hdr = true ∧
    untar [true] (c8hdr ++ []) =
      ⟨[.evEntryDir (cstr c8hdr) (parseoct ((c8hdr.drop 100).take 8)),
        .evMkdir (stripSlash (cstr c8hdr)) (parseoct ((c8hdr.drop 100).take 8)) true] ++
          (untar [] []).evs,
       (untar [] []).stop, (untar [] []).fOpen, (untar [] []).oracle,
       (untar [] []).stream⟩ :=
  ⟨by decide, untar_directory_entry c8hdr [] [] (by decide) (by decide) (by decide) (by decide)⟩

/-- C9: when the write of an entry's first payload block comes up short, the
engine closes and nulls the handle, keeps consuming the entry's remaining
payload blocks without writing any further bytes, does not abort the archive,
and processes the next entry normally from the following block. -/
theorem untar_short_write_isolated (hdr body rest : List Nat) (S : Nat) (o : List Bool)
    (h1 : hdr.length = 512) (h2 : verify_checksum hdr = true)
    (h3 : hdr.getD 156 0 = 48)
    (h4 : parseoct ((hdr.drop 124).take 12) = (S : Int))
    (h5 : 0 < S)
    (h6 : body.length = 512 * ceilBlocks S) :
    untar (true :: false :: o) (hdr ++ (body ++ rest)) =
      ⟨[.evEntryFile (cstr hdr) (parseoct ((hdr.drop 100).take 8)),
        .evFopen (cstr hdr) true, .evShortWrite, .evClose] ++ (untar o rest).evs,
       (untar o rest).stop, (untar o rest).fOpen, (untar o rest).oracle,
       (untar o rest).stream⟩ := by
  have heoa : is_end_of_archive hdr = false := is_end_false_of_getD h3 (by decide)
  have hcf := create_file_ok (true :: false :: o) hdr (parseoct ((hdr.drop 100).take 8)) rfl
  have hd : dispatch hdr (true :: false :: o) =
      ⟨[.evEntryFile (cstr hdr) (parseoct ((hdr.drop 100).take 8)),
        .evFopen (cstr hdr) true], (S : Int), true, false :: o⟩ := by
    rw [dispatch_reg hdr (true :: false :: o) h3, hcf, h4]
    rfl
  have hblen : 512 * ceilBlocks S ≤ (body ++ rest).length := by
    rw [List.length_append]
    omega
  have hfuel : ceilBlocks S < (body ++ rest).length + 1 := by
    rw [List.length_append]
    omega
  have hr : drain (false :: o) true (S : Int) (body ++ rest) =
      ⟨[.evShortWrite, .evClose], none, false, 0, o, rest⟩ := by
    show drainF ((body ++ rest).length + 1) (false :: o) true (S : Int) (body ++ rest) = _
    rw [drainF_failfirst ((body ++ rest).length + 1) S o (body ++ rest) h5 hblen hfuel,
      List.drop_left' h6]
  have hmain := untar_entry_cont (true :: false :: o) hdr (body ++ rest)
    ⟨[.evEntryFile (cstr hdr) (parseoct ((hdr.drop 100).take 8)),
      .evFopen (cstr hdr) true], (S : Int), true, false :: o⟩
    ⟨[.evShortWrite, .evClose], none, false, 0, o, rest⟩
    h1 heoa h2 hd hr rfl
  simpa using hmain

/-- Witness for C9 at a concrete size-5 file header whose only write fails. -/
theorem untar_short_write_isolated_witness :
    untar [true, false] (c9hdr ++ (List.replicate 512 77 ++ [])) =
      ⟨[.evEntryFile (cstr c9hdr) (parseoct ((c9hdr.drop 100).take 8)),
        .evFopen (cstr c9hdr) true, .evShortWrite, .evClose] ++ (untar [] []).evs,
       (untar [] []).stop, (untar [] []).fOpen, (untar [] []).oracle,
       (untar [] []).stream⟩ :=
  untar_short_write_isolated c9hdr (List.replicate 512 77) [] 5 [] (by decide) (by decide)
    (by decide) (by decide) (by decide) (by decide)

/-- C1: extracting a well-formed single-file archive — a header with a valid
checksum, regular-file type flag `'0'`, and declared size equal to the payload
length, followed by the payload zero-padded to a 512-byte boundary and a
terminating zero block — creates exactly one file, whose written bytes equal
the original payload byte for byte, and completes normally; this holds for
every payload length, including 0 and exact multiples of 512. -/
theorem untar_roundtrip_single_file (hdr payload : List Nat)
    (h1 : hdr.length = 512) (h2 : verify_checksum hdr = true)
    (h3 : hdr.getD 156 0 = 48)
    (h4 : parseoct ((hdr.drop 124).take 12) = (payload.length : Int)) :
    createdFiles (untar [] (hdr ++ (padTo512 payload ++ zeroBlock))).evs = [cstr hdr] ∧
    writtenBytes (untar [] (hdr ++ (padTo512 payload ++ zeroBlock))).evs = payload ∧
    (untar [] (hdr ++ (padTo512 payload ++ zeroBlock))).stop = .eoa ∧
    (untar [] (hdr ++ (padTo512 payload ++ zeroBlock))).fOpen = false := by
  have heoa : is_end_of_archive hdr = false := is_end_false_of_getD h3 (by decide)
  have hcf := create_file_ok [] hdr (parseoct ((hdr.drop 100).take 8)) rfl
  have hd : dispatch hdr [] =
      ⟨[.evEntryFile (cstr hdr) (parseoct ((hdr.drop 100).take 8)),
        .evFopen (cstr hdr) true], (payload.length : Int), true, []⟩ := by
    rw [dispatch_reg hdr [] h3, hcf, h4]
    rfl
  have hplen : (padTo512 payload).length = 512 * ceilBlocks payload.length :=
    padTo512_length payload
  have hlen : 512 * ceilBlocks payload.length ≤ (padTo512 payload ++ zeroBlock).length := by
    rw [List.length_append, hplen]
    omega
  have hfuel : ceilBlocks payload.length < (padTo512 payload ++ zeroBlock).length + 1 := by
    rw [List.length_append, hplen]
    omega
  obtain ⟨evs, heq, hw, ho⟩ := drainF_allok ((padTo512 payload ++ zeroBlock).length + 1)
    payload.length (padTo512 payload ++ zeroBlock) hlen hfuel
  have hdrop : (padTo512 payload ++ zeroBlock).drop (512 * ceilBlocks payload.length) =
      zeroBlock := List.drop_left' hplen
  have hr : drain [] true (payload.length : Int) (padTo512 payload ++ zeroBlock) =
      ⟨evs, none, true, 0, [], zeroBlock⟩ := by
    show drainF ((padTo512 payload ++ zeroBlock).length + 1) [] true (payload.length : Int)
      (padTo512 payload ++ zeroBlock) = _
    rw [heq, hdrop]
  have htail : untar [] zeroBlock = ⟨[], .eoa, false, [], []⟩ := by
    have := untar_eoa [] zeroBlock [] zeroBlock_length zeroBlock_is_end
    simpa using this
  have hmain := untar_entry_cont [] hdr (padTo512 payload ++ zeroBlock)
    ⟨[.evEntryFile (cstr hdr) (parseoct ((hdr.drop 100).take 8)),
      .evFopen (cstr hdr) true], (payload.length : Int), true, []⟩
    ⟨evs, none, true, 0, [], zeroBlock⟩
    h1 heoa h2 hd hr rfl
  rw [hmain, htail]
  have hcf0 : createdFiles evs = [] := onlyWrites_createdFiles evs ho
  have htake : (padTo512 payload ++ zeroBlock).take payload.length = payload := by
    rw [padTo512, List.append_assoc]
    exact List.take_left' rfl
  refine ⟨?_, ?_, rfl, rfl⟩
  · simp [createdFiles_append, createdFiles, hcf0]
  · simp only [writtenBytes_append, hw, htake]
    simp [writtenBytes]

/-- Witness for C1 at the concrete header for `a` (size 5) with payload
`hello`. -/
theorem untar_roundtrip_single_file_witness :
    verify_checksum c1hdr = true ∧
    createdFiles (untar [] (c1hdr ++ (padTo512 c1payload ++ zeroBlock))).evs = [cstr c1hdr] ∧
    writtenBytes (untar [] (c1hdr ++ (padTo512 c1payload ++ zeroBlock))).evs = c1payload ∧
    (untar [] (c1hdr ++ (padTo512 c1payload ++ zeroBlock))).stop = .eoa ∧
    (untar [] (c1hdr ++ (padTo512 c1payload ++ zeroBlock))).fOpen = false := by
  have h := untar_roundtrip_single_file c1hdr c1payload (by decide) (by decide) (by decide)
    (by decide)
  exact ⟨by decide, h.1, h.2.1, h.2.2.1, h.2.2.2⟩
